import Mathlib

/-!
Shallow embedding of the dashboard plugin (`src/main.ts`) of
obsidian-simple-dashboard, together with proofs about its
settings loading, goal/task store, note range queries, calendar
aggregation, streak calculation and daily-note creation.

JavaScript strings are modelled as Lean `String` except in the vault
model (daily-note creation), where paths are modelled as `List Char`
so that path splitting and joining can be reasoned about structurally.
Machine timestamps (millisecond epoch values compared with `<=`/`>=`)
are modelled as `Int`.
-/

/-! ### Data model (`src/main.ts`, interfaces at the top of the file) -/

structure DashboardSettings where
  noteFolders : List String
  dailyNoteFolder : String
  calendarUrls : String
deriving DecidableEq

structure Goal where
  text : String
  done : Bool
  due : Option String := none
deriving DecidableEq

structure TaskItem where
  text : String
  done : Bool
  due : Option String := none
deriving DecidableEq

def DEFAULT_SETTINGS : DashboardSettings :=
  { noteFolders := ["Notes"], dailyNoteFolder := "Daily", calendarUrls := "" }

/-- The raw `settings` object of a persisted data blob.  A field is `none`
when the stored document does not contain it; the legacy singular
`noteFolder` key (written by old plugin versions) is kept alongside the
current plural `noteFolders` key. -/
structure PersistedSettings where
  noteFolders : Option (List String) := none
  noteFolder : Option String := none
  dailyNoteFolder : Option String := none
  calendarUrls : Option String := none
deriving DecidableEq

/-- The persisted data blob (`PluginData` in the source). -/
structure PluginData where
  settings : PersistedSettings := {}
  goals : List Goal := []
  tasks : List TaskItem := []
deriving DecidableEq

/-- JavaScript truthiness of a string value: every string except `""` is truthy. -/
def jsTruthyStr (s : String) : Bool := s ≠ ""

/-- JavaScript truthiness of an array value: arrays are objects, and every
object is truthy (even an empty array). -/
def jsTruthyArr (_ : List String) : Bool := true

/-- Result of `loadSettings`: the settings plus the goal and task lists. -/
structure LoadedState where
  settings : DashboardSettings
  goals : List Goal
  tasks : List TaskItem
deriving DecidableEq

/-- `loadSettings` (src/main.ts lines 163-174).  `data` is the blob returned
by `loadData` (`none` models a missing document).  The merge
`Object.assign(..., DEFAULT_SETTINGS, data?.settings)` lets every field
present in the persisted settings override the default; afterwards the code
checks `anyLoaded.noteFolder && !anyLoaded.noteFolders` before wrapping the
legacy singular field.  After the merge `noteFolders` always holds an array
(the default if the blob had none), so the second conjunct tests the
truthiness of an array value. -/
def loadSettings (data : Option PluginData) : LoadedState :=
  let ps : PersistedSettings := match data with
    | some d => d.settings
    | none => {}
  let mergedNoteFolders : List String := ps.noteFolders.getD DEFAULT_SETTINGS.noteFolders
  let mergedDaily : String := ps.dailyNoteFolder.getD DEFAULT_SETTINGS.dailyNoteFolder
  let mergedUrls : String := ps.calendarUrls.getD DEFAULT_SETTINGS.calendarUrls
  let legacyTruthy : Bool := match ps.noteFolder with
    | some t => jsTruthyStr t
    | none => false
  let noteFolders : List String :=
    if legacyTruthy && !(jsTruthyArr mergedNoteFolders) then
      [(ps.noteFolder).getD ""]
    else
      mergedNoteFolders
  { settings := { noteFolders := noteFolders, dailyNoteFolder := mergedDaily,
                  calendarUrls := mergedUrls },
    goals := match data with | some d => d.goals | none => []
    tasks := match data with | some d => d.tasks | none => [] }

/-! ### Goal/task store (src/main.ts lines 181-227)

`window.prompt` returns `null` (modelled `none`) on cancel, otherwise the
entered string; the guard in the source is the truthiness test `if (text)`. -/

/-- `addGoal` (src/main.ts lines 181-189), parametrised by the prompt result. -/
def addGoal (promptResult : Option String) (goals : List Goal) : List Goal :=
  match promptResult with
  | none => goals
  | some text => if jsTruthyStr text then goals ++ [{ text := text, done := false }] else goals

/-- `addTask` (src/main.ts lines 205-213), parametrised by the prompt result. -/
def addTask (promptResult : Option String) (tasks : List TaskItem) : List TaskItem :=
  match promptResult with
  | none => tasks
  | some text => if jsTruthyStr text then tasks ++ [{ text := text, done := false }] else tasks

/-- JavaScript array indexing `goals[index]`: `undefined` for a negative or
out-of-range index.  (Plain bracket indexing does not count from the end.) -/
def jsIndex (goals : List Goal) (index : Int) : Option Goal :=
  if index < 0 then none else goals[index.toNat]?

/-- `toggleGoal` (src/main.ts lines 191-197): reads `this.goals[index]`,
returns unchanged when that is `undefined`, otherwise flips `done` in place. -/
def toggleGoal (goals : List Goal) (index : Int) : List Goal :=
  match jsIndex goals index with
  | none => goals
  | some g => goals.set index.toNat { g with done := !g.done }

/-- `deleteGoal` (src/main.ts lines 199-203): `this.goals.splice(index, 1)`.
`Array.prototype.splice` clamps the start position: a negative index counts
from the end of the array (clamped at 0), an index past the end removes
nothing. -/
def deleteGoal (goals : List Goal) (index : Int) : List Goal :=
  let len : Int := goals.length
  let start : Nat := if index < 0 then (len + index).toNat else min index.toNat goals.length
  goals.take start ++ goals.drop (start + 1)

/-! ### Note range queries (src/main.ts lines 388-407)

`TFile` values are modelled by their dashboard-relevant metadata
(`NoteRecord` in the spec); `f.stat.ctime` and `f.stat.mtime` are the
creation and modification timestamps. -/

structure NoteRecord where
  path : String
  basename : String
  ctime : Int
  mtime : Int
deriving DecidableEq

/-- The brute-force branch of `getNotesForRange`:
`vault.filter(f => f.stat.ctime >= start && f.stat.ctime <= end)`. -/
def linearScanNotes (vaultFiles : List NoteRecord) (start finish : Int) : List NoteRecord :=
  vaultFiles.filter (fun f => decide (start ≤ f.ctime) && decide (f.ctime ≤ finish))

/-- `getNotesForRange` (src/main.ts lines 388-407).  `basesOutcome` models the
accelerated path: `none` when `app.bases` is unavailable, `some none` when
`bases.search` throws (the `catch` leaves `files` empty), and
`some (some result)` when the search returns a file list.  The source falls
back to the linear scan whenever `files` is empty. -/
def getNotesForRange (vaultFiles : List NoteRecord)
    (basesOutcome : Option (Option (List NoteRecord))) (start finish : Int) :
    List NoteRecord :=
  let files : List NoteRecord := match basesOutcome with
    | some (some result) => result
    | some none => []
    | none => []
  if files.isEmpty then linearScanNotes vaultFiles start finish else files

/-! ### Calendar aggregation (src/main.ts lines 409-430) -/

/-- A parsed calendar component as delivered by the ICS library: a kind tag
(`"VEVENT"` for events), an optional summary (`undefined` modelled as
`none`), and a start timestamp. -/
structure CalComp where
  type : String
  summary : Option String
  start : Int
deriving DecidableEq

structure CalendarEvent where
  summary : String
  start : Int
deriving DecidableEq

/-- JavaScript `x || ''` on an optional string: `undefined` and `""` are
falsy and give `""`; any other string is returned unchanged. -/
def orEmptyString : Option String → String
  | some t => if t = "" then "" else t
  | none => ""

/-- The events contributed by one successfully fetched feed: components of
type `"VEVENT"` whose start lies in the inclusive range (moment's
`isBetween(startDate, endDate, undefined, brackets)` with both bounds
closed), in discovery order. -/
def eventsFromComps (comps : List CalComp) (start finish : Int) : List CalendarEvent :=
  comps.filterMap (fun c =>
    if c.type = "VEVENT" then
      if start ≤ c.start ∧ c.start ≤ finish then
        some { summary := orEmptyString c.summary, start := c.start }
      else none
    else none)

/-- The event-collection loop of `getEventsForRange`: each URL is fetched
inside a `try`; a failure (`fetchResult url = none`) is caught and logged and
the loop moves on to the next URL, so successful sources still contribute. -/
def collectEvents (fetchResult : String → Option (List CalComp)) (urls : List String)
    (start finish : Int) : List CalendarEvent :=
  urls.foldl (fun acc url =>
    match fetchResult url with
    | none => acc
    | some comps => acc ++ eventsFromComps comps start finish) []

/-- The comparator `(a, b) => a.start - b.start` of the final
`events.sort`: ascending order of start timestamps. -/
def evLE (a b : CalendarEvent) : Prop := a.start ≤ b.start

instance : DecidableRel evLE := fun a b => inferInstanceAs (Decidable (a.start ≤ b.start))

instance : IsTotal CalendarEvent evLE := ⟨fun a b => Int.le_total a.start b.start⟩

instance : IsTrans CalendarEvent evLE := ⟨fun _ _ _ hab hbc => Int.le_trans hab hbc⟩

/-- `getEventsForRange` (src/main.ts lines 409-430), parametrised by the
fetch+parse outcome per URL.  JavaScript `Array.prototype.sort` is a stable
sort, so with the consistent comparator above the result is the unique
stable ascending sort of the collected events, which insertion sort
computes. -/
def getEventsForRange (fetchResult : String → Option (List CalComp)) (urls : List String)
    (start finish : Int) : List CalendarEvent :=
  List.insertionSort evLE (collectEvents fetchResult urls start finish)

/-! ### Streak calculation (src/main.ts lines 235-247)

The loop walks day offsets 0, 1, 2, ... and checks
`getAbstractFileByPath(dailyNoteFolder + slash + date + ".md")` for the
date `streak` days before today; that file-existence test is abstracted
into a predicate on the day offset (the spec's injected `existsDailyNote`).
The source loop is `while (true)`, so the embedding carries explicit fuel:
`none` means the fuel ran out, i.e. the loop had not yet terminated. -/

def calculateDailyStreakAux (existsNote : Nat → Bool) : Nat → Nat → Option Nat
  | 0, _ => none
  | fuel + 1, streak =>
    if existsNote streak then calculateDailyStreakAux existsNote fuel (streak + 1)
    else some streak

/-- `calculateDailyStreak` (src/main.ts lines 235-247) with explicit fuel. -/
def calculateDailyStreak (existsNote : Nat → Bool) (fuel : Nat) : Option Nat :=
  calculateDailyStreakAux existsNote fuel 0

/-! ### Vault model and daily-note creation (src/main.ts lines 101-110, 148-158)

The vault is an association list from paths to entries; `vault.create` and
`vault.createFolder` add a fresh entry, `getAbstractFileByPath` looks a path
up.  Paths are `List Char` so that the `split` in `ensureFolder` can be
reasoned about structurally. -/

abbrev JStr := List Char

inductive VEntry where
  | file (content : JStr)
  | folder
deriving DecidableEq

abbrev Vault := List (JStr × VEntry)

/-- `app.vault.getAbstractFileByPath`: the entry stored at a path, if any. -/
def getAbstractFileByPath : Vault → JStr → Option VEntry
  | [], _ => none
  | (k, e) :: v, p => if k = p then some e else getAbstractFileByPath v p

/-- JavaScript `String.prototype.split` with a single-character separator. -/
def jsSplit (sep : Char) : JStr → List JStr
  | [] => [[]]
  | c :: rest =>
    match jsSplit sep rest with
    | [] => [[]]
    | p :: ps => if c = sep then [] :: p :: ps else (c :: p) :: ps

/-- The segment join of `ensureFolder`:
`current = current ? current + slash + part : part` (the empty string is
falsy). -/
def jsJoinStep (cur part : JStr) : JStr :=
  if cur = [] then part else cur ++ '/' :: part

/-- One step of the segment accumulation in `ensureFolder`: extend the
current prefix path and create the folder there unless something already
exists at that path. -/
def segStep (acc : Vault × JStr) (part : JStr) : Vault × JStr :=
  let current : JStr := jsJoinStep acc.2 part
  let v : Vault :=
    if (getAbstractFileByPath acc.1 current).isSome then acc.1
    else (current, VEntry.folder) :: acc.1
  (v, current)

/-- `ensureFolder` (src/main.ts lines 148-158): returns immediately when the
folder path already resolves, otherwise creates every missing prefix segment
of the path. -/
def ensureFolder (v : Vault) (folderPath : JStr) : Vault :=
  if (getAbstractFileByPath v folderPath).isSome then v
  else ((jsSplit '/' folderPath).foldl segStep (v, [])).1

/-- The daily note path `dailyNoteFolder + slash + dateStr + ".md"`. -/
def dailyNotePath (folder dateStr : JStr) : JStr :=
  folder ++ '/' :: (dateStr ++ ['.', 'm', 'd'])

/-- `createDailyNote` (src/main.ts lines 101-110): ensure the daily folder
exists, then create the note with content `"# " + dateStr` only when no
entry exists at its path.  (The final `openFile` does not change the
vault.) -/
def createDailyNote (dailyNoteFolder dateStr : JStr) (v : Vault) : Vault :=
  let v1 := ensureFolder v dailyNoteFolder
  let path := dailyNotePath dailyNoteFolder dateStr
  if (getAbstractFileByPath v1 path).isSome then v1
  else (path, VEntry.file ('#' :: ' ' :: dateStr)) :: v1

/-- The number of note files stored at a path (used to state that exactly
one note exists for a date). -/
def countNotesAt (p : JStr) (v : Vault) : Nat :=
  v.countP (fun e => decide (e.1 = p) && (match e.2 with | VEntry.file _ => true | VEntry.folder => false))

example : loadSettings none = { settings := DEFAULT_SETTINGS, goals := [], tasks := [] } := by decide
example : (loadSettings (some { settings := { noteFolder := some "Old" } })).settings.noteFolders = ["Notes"] := by decide
example : (loadSettings (some { settings := { noteFolders := some [] } })).settings.noteFolders = [] := by decide
example : addGoal (some " ") [] = [{ text := " ", done := false }] := by decide
example : deleteGoal [{ text := "a", done := false }] (-1) = [] := by decide
example : deleteGoal [{ text := "a", done := false }] 5 = [{ text := "a", done := false }] := by decide
example : toggleGoal [{ text := "a", done := false }] (-1) = [{ text := "a", done := false }] := by decide
/-! ## Claim theorems -/

/-- C1: the persisted blob `settings.noteFolder = "Old"` with no `noteFolders`
field is claimed to load as `noteFolders = ["Old"]`; the code instead loads
`["Notes"]`, because `Object.assign` installs the default `noteFolders` array
before the legacy check runs, and an array — even an empty one — is truthy,
so the guard `noteFolder && !noteFolders` can never fire. -/
theorem loadSettings_legacy_field_not_migrated :
    (loadSettings (some { settings := { noteFolder := some "Old" }, goals := [] })).settings.noteFolders = ["Notes"]
    ∧ (loadSettings (some { settings := { noteFolder := some "Old" }, goals := [] })).settings.noteFolders ≠ ["Old"] := by
  decide

/-- C2 counterexample: the prompt text `" "` consists only of whitespace (so
it trims to the empty string), yet `addGoal` appends it, because the source
guard is the truthiness test `if (text)` and `" "` is a non-empty, hence
truthy, string. -/
theorem addGoal_whitespace_text_appended :
    " ".toList.all Char.isWhitespace = true
    ∧ addGoal (some " ") [] = [{ text := " ", done := false }]
    ∧ addGoal (some " ") [] ≠ [] := by
  refine ⟨by decide, by decide, by decide⟩

/-- C2 amended: the goal-add and task-add operations are a no-op exactly when
the prompt was cancelled (`null`) or returned the empty string; every other
text — including whitespace-only text, since no trimming is performed — is
appended at the end as `{text, done:false}` with the existing entries
unchanged. -/
theorem addGoal_addTask_amended (goals : List Goal) (tasks : List TaskItem) :
    (addGoal none goals = goals ∧ addGoal (some "") goals = goals
      ∧ addTask none tasks = tasks ∧ addTask (some "") tasks = tasks)
    ∧ ∀ t : String, t ≠ "" →
        addGoal (some t) goals = goals ++ [{ text := t, done := false }]
        ∧ addTask (some t) tasks = tasks ++ [{ text := t, done := false }] := by
  refine ⟨⟨rfl, by simp [addGoal, jsTruthyStr], rfl, by simp [addTask, jsTruthyStr]⟩, ?_⟩
  intro t ht
  exact ⟨by simp [addGoal, jsTruthyStr, ht], by simp [addTask, jsTruthyStr, ht]⟩

theorem addGoal_addTask_amended_witness :
    addGoal (some "Buy milk") [] = [{ text := "Buy milk", done := false }] :=
  ((addGoal_addTask_amended [] []).2 "Buy milk" (by decide)).1

/-- C3 counterexample: a persisted blob whose settings carry an explicitly
empty `noteFolders` list loads with `noteFolders = []` — the code never
falls back to a default once the field is present. -/
theorem loadSettings_empty_noteFolders_kept :
    (loadSettings (some { settings := { noteFolders := some [] }, goals := [] })).settings.noteFolders = [] := by
  decide

/-- C3 amended: after `loadSettings`, `noteFolders` is non-empty whenever the
document is missing or its persisted settings either lack the `noteFolders`
field or carry a non-empty one; an explicitly persisted empty list, however,
is kept as-is. -/
theorem loadSettings_noteFolders_nonempty (data : Option PluginData)
    (h : ∀ d, data = some d →
      d.settings.noteFolders = none ∨ ∀ l, d.settings.noteFolders = some l → l ≠ []) :
    (loadSettings data).settings.noteFolders ≠ [] := by
  cases data with
  | none => decide
  | some d =>
    have h' := h d rfl
    cases hnf : d.settings.noteFolders with
    | none => simp [loadSettings, hnf, jsTruthyArr, DEFAULT_SETTINGS]
    | some l =>
      rcases h' with h1 | h2
      · rw [hnf] at h1; cases h1
      · have hl := h2 l hnf
        simpa [loadSettings, hnf, jsTruthyArr] using hl

theorem loadSettings_noteFolders_nonempty_witness :
    (loadSettings none).settings.noteFolders ≠ [] :=
  loadSettings_noteFolders_nonempty none (fun _ h => nomatch h)

/-- C4 counterexample: `deleteGoal` with the negative index `-1` on a
one-element list is not a no-op: `splice(-1, 1)` counts from the end of the
array and removes the last element. -/
theorem deleteGoal_negative_index_deletes :
    deleteGoal [{ text := "a", done := false }] (-1) = []
    ∧ ([] : List Goal) ≠ [{ text := "a", done := false }] := by
  constructor <;> decide

/-- C4 amended: `toggleGoal` is a no-op (and total, hence crash-free) for
every out-of-bounds index, negative ones included; `deleteGoal` is a no-op
for indices at or beyond the length, but a negative index follows JavaScript
`splice` semantics — it counts from the end (clamped at 0), so on a
non-empty list it removes exactly one element. -/
theorem toggleGoal_deleteGoal_out_of_bounds (goals : List Goal) (index : Int) :
    (¬ (0 ≤ index ∧ index < goals.length) → toggleGoal goals index = goals)
    ∧ ((goals.length : Int) ≤ index → deleteGoal goals index = goals)
    ∧ (index < 0 → goals ≠ [] → (deleteGoal goals index).length = goals.length - 1) := by
  refine ⟨?_, ?_, ?_⟩
  · intro h
    unfold toggleGoal jsIndex
    rcases lt_or_le index 0 with hlt | hge
    · simp [hlt]
    · have hlen : goals.length ≤ index.toNat := by omega
      simp [Int.not_lt.mpr hge, List.getElem?_eq_none hlen]
  · intro h
    have h0 : ¬ index < 0 := by omega
    have hlen : goals.length ≤ index.toNat := by omega
    unfold deleteGoal
    simp only [h0, if_false]
    rw [Nat.min_eq_right hlen, List.take_length, List.drop_eq_nil_of_le (by omega),
      List.append_nil]
  · intro hneg hne
    have hpos : 0 < goals.length := List.length_pos.mpr hne
    unfold deleteGoal
    simp only [hneg, if_true]
    have hstart : ((goals.length : Int) + index).toNat < goals.length := by omega
    simp [List.length_append, List.length_take, List.length_drop]
    omega

theorem toggleGoal_deleteGoal_out_of_bounds_witness :
    toggleGoal [{ text := "a", done := false }] 5 = [{ text := "a", done := false }]
    ∧ deleteGoal [{ text := "a", done := false }] 5 = [{ text := "a", done := false }]
    ∧ (deleteGoal [{ text := "a", done := false }] (-1)).length = 0 := by
  have h := toggleGoal_deleteGoal_out_of_bounds [{ text := "a", done := false }] 5
  have h' := toggleGoal_deleteGoal_out_of_bounds [{ text := "a", done := false }] (-1)
  refine ⟨h.1 (by decide), h.2.1 (by decide), ?_⟩
  have := h'.2.2 (by decide) (by decide)
  simpa using this

/-- C6: whenever the accelerated `bases` path is unavailable, throws, or
returns an empty file list, `getNotesForRange` returns exactly the
brute-force linear scan over the vault snapshot, so the caller-visible
result is that of the linear scan regardless of which path executed. -/
theorem getNotesForRange_fallback (vaultFiles : List NoteRecord)
    (basesOutcome : Option (Option (List NoteRecord))) (start finish : Int)
    (h : basesOutcome = none ∨ basesOutcome = some none ∨ basesOutcome = some (some [])) :
    getNotesForRange vaultFiles basesOutcome start finish
      = linearScanNotes vaultFiles start finish := by
  rcases h with h | h | h <;> subst h <;> rfl

theorem getNotesForRange_fallback_witness :
    getNotesForRange [{ path := "a.md", basename := "a", ctime := 5, mtime := 5 }]
        (some none) 0 10
      = linearScanNotes [{ path := "a.md", basename := "a", ctime := 5, mtime := 5 }] 0 10 :=
  getNotesForRange_fallback _ _ _ _ (Or.inr (Or.inl rfl))

/-- C7: the linear-scan range query returns exactly the notes of the
snapshot whose creation timestamp lies in the inclusive range, as a sublist
of the snapshot (so in the snapshot's original order), and the empty
snapshot yields the empty result. -/
theorem linearScanNotes_spec (N : List NoteRecord) (s e : Int) (_h : s ≤ e) :
    (linearScanNotes N s e).Sublist N
    ∧ (∀ n, n ∈ linearScanNotes N s e ↔ n ∈ N ∧ s ≤ n.ctime ∧ n.ctime ≤ e)
    ∧ linearScanNotes [] s e = [] := by
  refine ⟨List.filter_sublist _, fun n => ?_, rfl⟩
  simp [linearScanNotes, List.mem_filter, and_assoc]

theorem linearScanNotes_spec_witness :
    ({ path := "a.md", basename := "a", ctime := 5, mtime := 7 } : NoteRecord)
      ∈ linearScanNotes [{ path := "a.md", basename := "a", ctime := 5, mtime := 7 }] 5 10 := by
  have h := linearScanNotes_spec
    [{ path := "a.md", basename := "a", ctime := 5, mtime := 7 }] 5 10 (by decide)
  exact (h.2.1 _).mpr ⟨by decide, by decide, by decide⟩

/-- If the existence predicate holds for the `k` offsets after `j` and fails
at offset `j + k`, the streak loop started at `j` with enough fuel stops with
`j + k`. -/
theorem streakAux_eq_some (p : Nat → Bool) :
    ∀ fuel j k, (∀ i, i < k → p (j + i) = true) → p (j + k) = false → k < fuel →
      calculateDailyStreakAux p fuel j = some (j + k) := by
  intro fuel
  induction fuel with
  | zero => intro j k _ _ hf; cases hf
  | succ fuel ih =>
    intro j k h1 h2 hf
    cases k with
    | zero =>
      have hj : p j = false := by simpa using h2
      simp [calculateDailyStreakAux, hj]
    | succ k =>
      have hj : p j = true := by simpa using h1 0 (Nat.succ_pos k)
      have h1' : ∀ i, i < k → p (j + 1 + i) = true := by
        intro i hi
        have := h1 (i + 1) (by omega)
        simpa [Nat.add_assoc, Nat.add_comm 1 i] using this
      have h2' : p (j + 1 + k) = false := by
        have : j + 1 + k = j + (k + 1) := by omega
        rw [this]; exact h2
      have := ih (j + 1) k h1' h2' (by omega)
      have heq : j + 1 + k = j + (k + 1) := by omega
      simp [calculateDailyStreakAux, hj, this, heq]

/-- When the streak loop stops with a value `r`, the existence predicate is
false at offset `r`. -/
theorem streakAux_some_false (p : Nat → Bool) :
    ∀ fuel j r, calculateDailyStreakAux p fuel j = some r → p r = false := by
  intro fuel
  induction fuel with
  | zero => intro j r h; cases h
  | succ fuel ih =>
    intro j r h
    by_cases hj : p j = true
    · rw [calculateDailyStreakAux, if_pos hj] at h
      exact ih (j + 1) r h
    · rw [calculateDailyStreakAux, if_neg hj] at h
      cases h
      exact Bool.not_eq_true _ |>.mp hj

/-- C8: with enough fuel the streak calculation returns `k` whenever the
daily notes for offsets `0 .. k-1` all exist and the note for offset `k`
does not; in particular it returns 0 when the note for offset 0 (today) is
absent. -/
theorem calculateDailyStreak_spec (p : Nat → Bool) (k fuel : Nat)
    (h1 : ∀ i, i < k → p i = true) (h2 : p k = false) (hf : k < fuel) :
    calculateDailyStreak p fuel = some k
    ∧ (p 0 = false → calculateDailyStreak p fuel = some 0) := by
  have hmain : calculateDailyStreak p fuel = some k := by
    have := streakAux_eq_some p fuel 0 k (by simpa using h1) (by simpa using h2) hf
    simpa [calculateDailyStreak] using this
  refine ⟨hmain, fun h0 => ?_⟩
  have hk0 : k = 0 := by
    by_contra hne
    have := h1 0 (Nat.pos_of_ne_zero hne)
    simp [h0] at this
  rw [hk0] at hmain
  exact hmain

theorem calculateDailyStreak_spec_witness :
    calculateDailyStreak (fun i => decide (i < 2)) 10 = some 2 :=
  (calculateDailyStreak_spec (fun i => decide (i < 2)) 2 10
    (by intro i hi; interval_cases i <;> decide) (by decide) (by decide)).1

/-- C10: the streak loop (here run on fuel, `none` meaning the fuel was
exhausted before the loop stopped) terminates for some fuel if and only if
the daily note is absent at some offset; and when the existence predicate
holds at every offset the loop never stops, whatever the fuel — the source
`while (true)` loop runs forever. -/
theorem calculateDailyStreak_terminates_iff (p : Nat → Bool) :
    ((∃ fuel, (calculateDailyStreak p fuel).isSome) ↔ ∃ k, p k = false)
    ∧ ((∀ i, p i = true) → ∀ fuel, calculateDailyStreak p fuel = none) := by
  constructor
  · constructor
    · rintro ⟨fuel, hf⟩
      cases hr : calculateDailyStreak p fuel with
      | none => rw [hr] at hf; cases hf
      | some r => exact ⟨r, streakAux_some_false p fuel 0 r hr⟩
    · rintro ⟨k, hk⟩
      have hdp : ∃ n, p n = false := ⟨k, hk⟩
      refine ⟨Nat.find hdp + 1, ?_⟩
      have hlt : ∀ i, i < Nat.find hdp → p i = true := by
        intro i hi
        have hne := Nat.find_min hdp hi
        cases hpi : p i with
        | false => exact absurd hpi hne
        | true => rfl
      have := streakAux_eq_some p (Nat.find hdp + 1) 0 (Nat.find hdp)
        (by simpa using hlt) (by simpa using Nat.find_spec hdp) (Nat.lt_succ_self _)
      simp [calculateDailyStreak, this]
  · intro hall fuel
    cases hr : calculateDailyStreak p fuel with
    | none => rfl
    | some r =>
      have := streakAux_some_false p fuel 0 r hr
      rw [hall r] at this
      cases this

theorem calculateDailyStreak_terminates_iff_witness :
    calculateDailyStreak (fun _ => true) 5 = none :=
  (calculateDailyStreak_terminates_iff (fun _ => true)).2 (fun _ => rfl) 5

/-- The collection loop equals the concatenation, in URL order, of the
events contributed by each successfully fetched source. -/
theorem collectEvents_eq (fetch : String → Option (List CalComp)) (urls : List String)
    (s e : Int) :
    collectEvents fetch urls s e
      = ((urls.filterMap fetch).map (fun comps => eventsFromComps comps s e)).flatten := by
  suffices h : ∀ acc : List CalendarEvent,
      urls.foldl (fun acc url =>
        match fetch url with
        | none => acc
        | some comps => acc ++ eventsFromComps comps s e) acc
      = acc ++ ((urls.filterMap fetch).map (fun comps => eventsFromComps comps s e)).flatten by
    simpa [collectEvents] using h []
  induction urls with
  | nil => intro acc; simp
  | cons u rest ih =>
    intro acc
    cases hf : fetch u with
    | none => simp [List.filterMap_cons, hf, ih]
    | some comps => simp [List.filterMap_cons, hf, ih, List.append_assoc]

/-- C5: for every per-URL fetch outcome (including ones where some sources
fail and others succeed), `getEventsForRange` returns a permutation of the
events collected from the successful sources only — a failing URL never
aborts the others — the result is sorted ascending by start timestamp, and
an event is in the result exactly when some successful source contains a
`VEVENT` component whose start lies within the inclusive range, so events
starting exactly at either boundary are included. -/
theorem getEventsForRange_spec (fetch : String → Option (List CalComp)) (urls : List String)
    (s e : Int) :
    List.Sorted evLE (getEventsForRange fetch urls s e)
    ∧ (getEventsForRange fetch urls s e).Perm (collectEvents fetch urls s e)
    ∧ ∀ ev, ev ∈ getEventsForRange fetch urls s e ↔
        ∃ url ∈ urls, ∃ comps, fetch url = some comps ∧
          ∃ c ∈ comps, c.type = "VEVENT" ∧ s ≤ c.start ∧ c.start ≤ e
            ∧ ev = { summary := orEmptyString c.summary, start := c.start } := by
  refine ⟨List.sorted_insertionSort evLE _, List.perm_insertionSort evLE _, fun ev => ?_⟩
  rw [getEventsForRange, (List.perm_insertionSort evLE _).mem_iff, collectEvents_eq]
  simp only [List.mem_flatten, List.mem_map, List.mem_filterMap, eventsFromComps]
  constructor
  · rintro ⟨l, ⟨comps, ⟨url, hurl, hf⟩, rfl⟩, hev⟩
    rw [List.mem_filterMap] at hev
    obtain ⟨c, hc, hsome⟩ := hev
    by_cases ht : c.type = "VEVENT"
    · rw [if_pos ht] at hsome
      by_cases hr : s ≤ c.start ∧ c.start ≤ e
      · rw [if_pos hr] at hsome
        cases hsome
        exact ⟨url, hurl, comps, hf, c, hc, ht, hr.1, hr.2, rfl⟩
      · rw [if_neg hr] at hsome; cases hsome
    · rw [if_neg ht] at hsome; cases hsome
  · rintro ⟨url, hurl, comps, hf, c, hc, ht, hs, he, rfl⟩
    refine ⟨comps.filterMap _, ⟨comps, ⟨url, hurl, hf⟩, rfl⟩, ?_⟩
    rw [List.mem_filterMap]
    exact ⟨c, hc, by rw [if_pos ht, if_pos ⟨hs, he⟩]⟩

theorem getEventsForRange_spec_witness :
    ({ summary := "b", start := 5 } : CalendarEvent)
      ∈ getEventsForRange
          (fun u => if u = "bad" then none else some
            [{ type := "VEVENT", summary := some "b", start := 5 }])
          ["bad", "good"] 5 10 := by
  have h := getEventsForRange_spec
    (fun u => if u = "bad" then none else some
      [{ type := "VEVENT", summary := some "b", start := 5 }])
    ["bad", "good"] 5 10
  exact (h.2.2 _).mpr ⟨"good", by decide,
    [{ type := "VEVENT", summary := some "b", start := 5 }], by decide,
    { type := "VEVENT", summary := some "b", start := 5 }, by decide, by decide,
    by decide, by decide, by decide⟩

/-- Sum of the segment lengths plus one separator per segment: an upper
bound for the length of any prefix join produced by `ensureFolder`. -/
def segLenBound : List JStr → Nat
  | [] => 0
  | p :: ps => p.length + 1 + segLenBound ps

theorem lookup_prepend_isSome (l : Vault) (v : Vault) (p : JStr)
    (h : (getAbstractFileByPath v p).isSome) :
    (getAbstractFileByPath (l ++ v) p).isSome := by
  induction l with
  | nil => simpa using h
  | cons ke rest ih =>
    by_cases hk : ke.1 = p
    · simp [getAbstractFileByPath, hk]
    · simpa [getAbstractFileByPath, hk] using ih

theorem lookup_prepend_ne (l : Vault) (v : Vault) (p : JStr)
    (h : ∀ ke ∈ l, ke.1 ≠ p) :
    getAbstractFileByPath (l ++ v) p = getAbstractFileByPath v p := by
  induction l with
  | nil => rfl
  | cons ke rest ih =>
    have hk : ke.1 ≠ p := h ke (List.mem_cons_self ke rest)
    simp only [List.cons_append, getAbstractFileByPath, if_neg hk]
    exact ih (fun x hx => h x (List.mem_cons_of_mem ke hx))

theorem jsJoinStep_length (cur part : JStr) :
    (jsJoinStep cur part).length ≤ cur.length + 1 + part.length := by
  unfold jsJoinStep
  by_cases h : cur = []
  · simp [h]
  · simp [h, List.length_append]
    omega

/-- The segment fold only prepends folder entries, each at a path whose
length is bounded by the length of the current prefix plus the remaining
segments with their separators. -/
theorem segFold_entries (parts : List JStr) :
    ∀ v cur, ∃ l : Vault, (parts.foldl segStep (v, cur)).1 = l ++ v
      ∧ ∀ ke ∈ l, ke.2 = VEntry.folder ∧ ke.1.length ≤ cur.length + segLenBound parts := by
  induction parts with
  | nil => intro v cur; exact ⟨[], rfl, by simp⟩
  | cons p rest ih =>
    intro v cur
    simp only [List.foldl_cons]
    have hjoin := jsJoinStep_length cur p
    by_cases hg : (getAbstractFileByPath v (jsJoinStep cur p)).isSome
    · have hstep : segStep (v, cur) p = (v, jsJoinStep cur p) := by
        simp [segStep, hg]
      rw [hstep]
      obtain ⟨l, hl, hprop⟩ := ih v (jsJoinStep cur p)
      refine ⟨l, hl, fun ke hke => ⟨(hprop ke hke).1, ?_⟩⟩
      have := (hprop ke hke).2
      simp only [segLenBound]
      omega
    · have hstep : segStep (v, cur) p
          = ((jsJoinStep cur p, VEntry.folder) :: v, jsJoinStep cur p) := by
        simp [segStep, hg]
      rw [hstep]
      obtain ⟨l, hl, hprop⟩ := ih ((jsJoinStep cur p, VEntry.folder) :: v) (jsJoinStep cur p)
      refine ⟨l ++ [(jsJoinStep cur p, VEntry.folder)], by simpa using hl, fun ke hke => ?_⟩
      rcases List.mem_append.mp hke with hke | hke
      · have := hprop ke hke
        refine ⟨this.1, ?_⟩
        simp only [segLenBound]
        omega
      · rcases List.mem_singleton.mp hke with rfl
        refine ⟨rfl, ?_⟩
        simp only [segLenBound]
        omega

theorem jsSplit_ne_nil (sep : Char) (l : JStr) : jsSplit sep l ≠ [] := by
  cases l with
  | nil => simp [jsSplit]
  | cons c rest =>
    simp only [jsSplit]
    cases h : jsSplit sep rest with
    | nil => simp
    | cons p ps =>
      by_cases hc : c = sep <;> simp [hc]

theorem segLenBound_jsSplit (sep : Char) (l : JStr) :
    segLenBound (jsSplit sep l) = l.length + 1 := by
  induction l with
  | nil => simp [jsSplit, segLenBound]
  | cons c rest ih =>
    simp only [jsSplit]
    cases h : jsSplit sep rest with
    | nil => exact absurd h (jsSplit_ne_nil sep rest)
    | cons p ps =>
      rw [h] at ih
      by_cases hc : c = sep
      · simp only [if_pos hc, segLenBound]
        simp only [segLenBound] at ih
        simp [List.length_cons]
        omega
      · simp only [if_neg hc, segLenBound]
        simp only [segLenBound] at ih
        simp [List.length_cons]
        omega

theorem segStep_fst (v : Vault) (cur part : JStr) :
    (segStep (v, cur) part).1
      = if (getAbstractFileByPath v (jsJoinStep cur part)).isSome then v
        else (jsJoinStep cur part, VEntry.folder) :: v := rfl

theorem segStep_snd (v : Vault) (cur part : JStr) :
    (segStep (v, cur) part).2 = jsJoinStep cur part := rfl

/-- After one segment step, the freshly joined prefix path resolves. -/
theorem segStep_lookup_isSome (v : Vault) (cur part : JStr) :
    (getAbstractFileByPath (segStep (v, cur) part).1 (jsJoinStep cur part)).isSome := by
  rw [segStep_fst]
  by_cases hg : (getAbstractFileByPath v (jsJoinStep cur part)).isSome
  · rw [if_pos hg]
    exact hg
  · rw [if_neg hg]
    simp [getAbstractFileByPath]

/-- Re-running the segment fold over any extension of its own result changes
nothing: every prefix path it would create already resolves. -/
theorem segFold_refold (parts : List JStr) :
    ∀ v cur (l : Vault),
      parts.foldl segStep (l ++ (parts.foldl segStep (v, cur)).1, cur)
        = (l ++ (parts.foldl segStep (v, cur)).1, (parts.foldl segStep (v, cur)).2) := by
  induction parts with
  | nil => intro v cur l; rfl
  | cons p rest ih =>
    intro v cur l
    simp only [List.foldl_cons]
    have hfst : (segStep (v, cur) p).1 = (segStep (v, cur) p).1 := rfl
    obtain ⟨m, hm, _⟩ := segFold_entries rest (segStep (v, cur) p).1 (segStep (v, cur) p).2
    have hsnd := segStep_snd v cur p
    have hlook : (getAbstractFileByPath
        (l ++ (rest.foldl segStep (segStep (v, cur) p)).1) (jsJoinStep cur p)).isSome := by
      have h1 : (getAbstractFileByPath (segStep (v, cur) p).1 (jsJoinStep cur p)).isSome :=
        segStep_lookup_isSome v cur p
      have h2 := lookup_prepend_isSome m _ _ h1
      have heq : (rest.foldl segStep (segStep (v, cur) p)).1
          = m ++ (segStep (v, cur) p).1 := by
        have : rest.foldl segStep (segStep (v, cur) p)
            = rest.foldl segStep ((segStep (v, cur) p).1, (segStep (v, cur) p).2) := by
          cases hs : segStep (v, cur) p; rfl
        rw [this]
        exact hm
      rw [heq]
      exact lookup_prepend_isSome l _ _ h2
    have hstep2 : segStep (l ++ (rest.foldl segStep (segStep (v, cur) p)).1, cur) p
        = (l ++ (rest.foldl segStep (segStep (v, cur) p)).1, jsJoinStep cur p) := by
      refine Prod.ext ?_ ?_
      · rw [segStep_fst (l ++ (rest.foldl segStep (segStep (v, cur) p)).1) cur p, if_pos hlook]
      · exact segStep_snd (l ++ (rest.foldl segStep (segStep (v, cur) p)).1) cur p
    rw [hstep2]
    have hsv : segStep (v, cur) p = ((segStep (v, cur) p).1, jsJoinStep cur p) := by
      rw [← hsnd]
    calc rest.foldl segStep (l ++ (rest.foldl segStep (segStep (v, cur) p)).1, jsJoinStep cur p)
        = rest.foldl segStep
            (l ++ (rest.foldl segStep ((segStep (v, cur) p).1, jsJoinStep cur p)).1,
              jsJoinStep cur p) := by rw [← hsv]
      _ = (l ++ (rest.foldl segStep ((segStep (v, cur) p).1, jsJoinStep cur p)).1,
            (rest.foldl segStep ((segStep (v, cur) p).1, jsJoinStep cur p)).2) :=
            ih (segStep (v, cur) p).1 (jsJoinStep cur p) l
      _ = (l ++ (rest.foldl segStep (segStep (v, cur) p)).1,
            (rest.foldl segStep (segStep (v, cur) p)).2) := by rw [← hsv]

/-- `ensureFolder` is idempotent. -/
theorem ensureFolder_idem (v : Vault) (f : JStr) :
    ensureFolder (ensureFolder v f) f = ensureFolder v f := by
  unfold ensureFolder
  by_cases hv : (getAbstractFileByPath v f).isSome
  · rw [if_pos hv, if_pos hv]
  · rw [if_neg hv]
    by_cases hF : (getAbstractFileByPath ((jsSplit '/' f).foldl segStep (v, [])).1 f).isSome
    · rw [if_pos hF]
    · rw [if_neg hF]
      have := segFold_refold (jsSplit '/' f) v [] []
      simpa using congrArg Prod.fst this

/-- The segment fold preserves every existing vault binding: it only creates
entries at paths that did not resolve. -/
theorem segFold_lookup_preserved (parts : List JStr) :
    ∀ v cur (p : JStr) (x : VEntry), getAbstractFileByPath v p = some x →
      getAbstractFileByPath (parts.foldl segStep (v, cur)).1 p = some x := by
  induction parts with
  | nil => intro v cur p x h; exact h
  | cons q rest ih =>
    intro v cur p x h
    simp only [List.foldl_cons]
    by_cases hg : (getAbstractFileByPath v (jsJoinStep cur q)).isSome
    · have hstep : segStep (v, cur) q = (v, jsJoinStep cur q) := by simp [segStep, hg]
      rw [hstep]
      exact ih v (jsJoinStep cur q) p x h
    · have hstep : segStep (v, cur) q
          = ((jsJoinStep cur q, VEntry.folder) :: v, jsJoinStep cur q) := by
        simp [segStep, hg]
      rw [hstep]
      have hne : jsJoinStep cur q ≠ p := by
        intro heq
        rw [heq] at hg
        exact hg (by simp [h])
      have h' : getAbstractFileByPath ((jsJoinStep cur q, VEntry.folder) :: v) p = some x := by
        simp [getAbstractFileByPath, hne, h]
      exact ih _ (jsJoinStep cur q) p x h'

theorem ensureFolder_lookup_preserved (v : Vault) (f p : JStr) (x : VEntry)
    (h : getAbstractFileByPath v p = some x) :
    getAbstractFileByPath (ensureFolder v f) p = some x := by
  unfold ensureFolder
  by_cases hv : (getAbstractFileByPath v f).isSome
  · simpa [hv] using h
  · simp only [hv, if_false]
    exact segFold_lookup_preserved (jsSplit '/' f) v [] p x h

/-- A path strictly longer than the folder path plus one separator cannot be
created by `ensureFolder`, so when nothing resolves there before, nothing
resolves there after. -/
theorem ensureFolder_lookup_long_none (v : Vault) (f p : JStr)
    (h : getAbstractFileByPath v p = none) (hlen : f.length + 1 < p.length) :
    getAbstractFileByPath (ensureFolder v f) p = none := by
  unfold ensureFolder
  by_cases hv : (getAbstractFileByPath v f).isSome
  · rw [if_pos hv]; exact h
  · rw [if_neg hv]
    obtain ⟨l, hl, hprop⟩ := segFold_entries (jsSplit '/' f) v []
    rw [hl, lookup_prepend_ne l v p ?_, h]
    intro ke hke heq
    have := (hprop ke hke).2
    rw [segLenBound_jsSplit] at this
    rw [heq] at this
    simp at this
    omega

theorem ensureFolder_eq (v : Vault) (f : JStr) :
    ensureFolder v f
      = if (getAbstractFileByPath v f).isSome then v
        else ((jsSplit '/' f).foldl segStep (v, [])).1 := rfl

/-- `ensureFolder` is a no-op on any extension of its own result. -/
theorem ensureFolder_prepend_stable (v : Vault) (f : JStr) (l : Vault) :
    ensureFolder (l ++ ensureFolder v f) f = l ++ ensureFolder v f := by
  rw [ensureFolder_eq (l ++ ensureFolder v f) f]
  by_cases hg : (getAbstractFileByPath (l ++ ensureFolder v f) f).isSome
  · rw [if_pos hg]
  · rw [if_neg hg]
    by_cases hv : (getAbstractFileByPath v f).isSome
    · exfalso
      refine hg (lookup_prepend_isSome l _ f ?_)
      rw [ensureFolder_eq v f, if_pos hv]
      exact hv
    · have hE : ensureFolder v f = ((jsSplit '/' f).foldl segStep (v, [])).1 := by
        rw [ensureFolder_eq v f, if_neg hv]
      rw [hE]
      exact congrArg Prod.fst (segFold_refold (jsSplit '/' f) v [] l)

theorem createDailyNote_eq (folder dateStr : JStr) (v : Vault) :
    createDailyNote folder dateStr v
      = if (getAbstractFileByPath (ensureFolder v folder)
              (dailyNotePath folder dateStr)).isSome
        then ensureFolder v folder
        else (dailyNotePath folder dateStr, VEntry.file ('#' :: ' ' :: dateStr))
              :: ensureFolder v folder := rfl

theorem countNotesAt_eq_zero (p : JStr) (v : Vault)
    (h : getAbstractFileByPath v p = none) : countNotesAt p v = 0 := by
  induction v with
  | nil => rfl
  | cons ke rest ih =>
    obtain ⟨k, e⟩ := ke
    by_cases hk : k = p
    · rw [getAbstractFileByPath, if_pos hk] at h
      cases h
    · rw [getAbstractFileByPath, if_neg hk] at h
      have := ih h
      simp only [countNotesAt, List.countP_cons] at this ⊢
      simp [hk, this]

theorem countNotesAt_folders_zero (p : JStr) (l : Vault)
    (h : ∀ ke ∈ l, ke.2 = VEntry.folder) : countNotesAt p l = 0 := by
  unfold countNotesAt
  rw [List.countP_eq_zero]
  intro ke hke
  simp [h ke hke]

/-- C9: daily-note creation is idempotent.  Calling `createDailyNote` again
in the state produced by a first call changes nothing at all; when a note
already exists at the date's path its content is untouched; and starting
from a vault with no entry at that path, two calls leave exactly one note
file for that date. -/
theorem createDailyNote_idempotent (folder dateStr : JStr) (v : Vault) :
    createDailyNote folder dateStr (createDailyNote folder dateStr v)
      = createDailyNote folder dateStr v
    ∧ (∀ c, getAbstractFileByPath v (dailyNotePath folder dateStr) = some (VEntry.file c) →
        getAbstractFileByPath (createDailyNote folder dateStr v) (dailyNotePath folder dateStr)
          = some (VEntry.file c))
    ∧ (getAbstractFileByPath v (dailyNotePath folder dateStr) = none →
        countNotesAt (dailyNotePath folder dateStr)
          (createDailyNote folder dateStr (createDailyNote folder dateStr v)) = 1) := by
  have hpreserve : ∀ c,
      getAbstractFileByPath v (dailyNotePath folder dateStr) = some (VEntry.file c) →
      getAbstractFileByPath (createDailyNote folder dateStr v) (dailyNotePath folder dateStr)
        = some (VEntry.file c) := by
    intro c hc
    have h1 := ensureFolder_lookup_preserved v folder (dailyNotePath folder dateStr) _ hc
    rw [createDailyNote_eq, if_pos (by simp [h1])]
    exact h1
  have hidem : createDailyNote folder dateStr (createDailyNote folder dateStr v)
      = createDailyNote folder dateStr v := by
    by_cases hg : (getAbstractFileByPath (ensureFolder v folder)
        (dailyNotePath folder dateStr)).isSome
    · have hw : createDailyNote folder dateStr v = ensureFolder v folder := by
        rw [createDailyNote_eq, if_pos hg]
      rw [hw, createDailyNote_eq, ensureFolder_idem, if_pos hg]
    · have hw : createDailyNote folder dateStr v
          = (dailyNotePath folder dateStr, VEntry.file ('#' :: ' ' :: dateStr))
              :: ensureFolder v folder := by
        rw [createDailyNote_eq, if_neg hg]
      have hens : ensureFolder ((dailyNotePath folder dateStr,
            VEntry.file ('#' :: ' ' :: dateStr)) :: ensureFolder v folder) folder
          = (dailyNotePath folder dateStr, VEntry.file ('#' :: ' ' :: dateStr))
              :: ensureFolder v folder := by
        simpa using ensureFolder_prepend_stable v folder
          [(dailyNotePath folder dateStr, VEntry.file ('#' :: ' ' :: dateStr))]
      have hlook : (getAbstractFileByPath
          ((dailyNotePath folder dateStr, VEntry.file ('#' :: ' ' :: dateStr))
            :: ensureFolder v folder) (dailyNotePath folder dateStr)).isSome := by
        simp [getAbstractFileByPath]
      rw [hw, createDailyNote_eq, hens, if_pos hlook]
  refine ⟨hidem, hpreserve, fun hnone => ?_⟩
  have hlen : folder.length + 1 < (dailyNotePath folder dateStr).length := by
    simp [dailyNotePath, List.length_append]
  have h1 : getAbstractFileByPath (ensureFolder v folder)
      (dailyNotePath folder dateStr) = none :=
    ensureFolder_lookup_long_none v folder _ hnone hlen
  have hw : createDailyNote folder dateStr v
      = (dailyNotePath folder dateStr, VEntry.file ('#' :: ' ' :: dateStr))
          :: ensureFolder v folder := by
    rw [createDailyNote_eq, if_neg (by simp [h1])]
  have hE0 : countNotesAt (dailyNotePath folder dateStr) (ensureFolder v folder) = 0 := by
    rw [ensureFolder_eq v folder]
    by_cases hv : (getAbstractFileByPath v folder).isSome
    · rw [if_pos hv]
      exact countNotesAt_eq_zero _ _ hnone
    · rw [if_neg hv]
      obtain ⟨l, hl, hprop⟩ := segFold_entries (jsSplit '/' folder) v []
      rw [hl]
      unfold countNotesAt
      rw [List.countP_append]
      have hzl := countNotesAt_folders_zero (dailyNotePath folder dateStr) l
        (fun ke hke => (hprop ke hke).1)
      have hzv := countNotesAt_eq_zero (dailyNotePath folder dateStr) v hnone
      unfold countNotesAt at hzl hzv
      omega
  rw [hidem, hw]
  simp only [countNotesAt, List.countP_cons] at hE0 ⊢
  simp [hE0]

theorem createDailyNote_idempotent_witness :
    countNotesAt (dailyNotePath "Daily".toList "2024-01-01".toList)
      (createDailyNote "Daily".toList "2024-01-01".toList
        (createDailyNote "Daily".toList "2024-01-01".toList [])) = 1 :=
  (createDailyNote_idempotent "Daily".toList "2024-01-01".toList []).2.2 (by decide)

example : jsSplit '/' "a/b".toList = ["a".toList, "b".toList] := by decide
example : jsSplit '/' "".toList = [[]] := by decide
example : jsSplit '/' "/x".toList = [[], "x".toList] := by decide
example : calculateDailyStreak (fun i => decide (i < 2)) 10 = some 2 := by decide
example : calculateDailyStreak (fun _ => true) 3 = none := by decide
example :
    getEventsForRange
      (fun u => if u = "bad" then none else some
        [{ type := "VEVENT", summary := some "b", start := 5 },
         { type := "VTODO", summary := some "t", start := 6 },
         { type := "VEVENT", summary := none, start := 0 },
         { type := "VEVENT", summary := some "late", start := 99 }])
      ["bad", "good"] 0 10 =
    [{ summary := "", start := 0 }, { summary := "b", start := 5 }] := by decide
example :
    createDailyNote "Daily".toList "2024-01-01".toList [] =
      [(("Daily/2024-01-01.md").toList, VEntry.file ("# 2024-01-01".toList)),
       ("Daily".toList, VEntry.folder)] := by decide
example :
    createDailyNote "Daily".toList "2024-01-01".toList
      (createDailyNote "Daily".toList "2024-01-01".toList []) =
      createDailyNote "Daily".toList "2024-01-01".toList [] := by decide
example :
    countNotesAt ("Daily/2024-01-01.md").toList
      (createDailyNote "Daily".toList "2024-01-01".toList
        (createDailyNote "Daily".toList "2024-01-01".toList [])) = 1 := by decide
